import Mathlib

/-!
# Verification of the powermon telemetry normalization and trend engine

Shallow embedding of the power monitoring core (package `power`) and proofs
about it.  Modelling conventions, used consistently below:

* `time.Time` and `time.Duration` are modelled as integers (`ℤ`); only
  comparisons, subtraction and `Add` of durations are used by the code.
* `float64` is modelled as the exact rationals `ℚ`.  Every float operation
  the embedded code performs on the values appearing in the theorems below
  (small integer sums, products and divisions by powers of ten) is exact,
  so the rational model agrees with the IEEE evaluation there.
* Go strings are modelled as `List Char`; the handful of `regexp` patterns
  used by the monitors are embedded as direct scanning functions with Go's
  leftmost-first match semantics (each pattern is a fixed literal followed
  by character-class segments whose classes are pairwise disjoint, so the
  greedy/lazy scans below compute exactly the submatch Go's engine returns).
* fallible parsing (`strconv.ParseUint` etc.) returns `Option`.
-/

namespace Powermon

/-- `Reading` (History/Reading file): a single power consumption measurement. -/
structure Reading where
  watts : ℚ
  timestamp : ℤ
  isOnBattery : Bool
  batteryPercent : ℚ
  isCharging : Bool
  source : String
deriving DecidableEq, Repr, Inhabited

/-- The zero value `Reading{}` returned by `History.Latest` on an empty buffer. -/
def emptyReading : Reading :=
  { watts := 0, timestamp := 0, isOnBattery := false, batteryPercent := 0,
    isCharging := false, source := "" }

/-- `History`: rolling window of power readings (`readings`, `maxSize`, `windowSize`). -/
structure History where
  readings : List Reading
  maxSize : ℕ
  windowSize : ℤ
deriving DecidableEq, Repr

/-- `NewHistory(maxSize, windowSize)`. -/
def NewHistory (maxSize : ℕ) (windowSize : ℤ) : History :=
  { readings := [], maxSize := maxSize, windowSize := windowSize }

/-- The `startIdx` computed by the scanning loop of `History.prune`: index of the
first reading whose timestamp is strictly after `cutoff` (`Time.After`), or the
length of the list when no reading qualifies. -/
def pruneIdx (cutoff : ℤ) : List Reading → ℕ
  | [] => 0
  | r :: rest => if cutoff < r.timestamp then 0 else pruneIdx cutoff rest + 1

/-- `History.prune(now)`: drops the scanned prefix (`h.readings = h.readings[startIdx:]`;
the Go guard `startIdx > 0 && startIdx <= len` only skips a no-op slice). -/
def History.prune (h : History) (now : ℤ) : History :=
  { h with readings := h.readings.drop (pruneIdx (now - h.windowSize) h.readings) }

/-- `History.Add(r)`: prune at `r.Timestamp`, append `r`, evict the front
element when the capacity is exceeded. -/
def History.Add (h : History) (r : Reading) : History :=
  let h1 := h.prune r.timestamp
  let rs := h1.readings ++ [r]
  { h1 with readings := if h1.maxSize < rs.length then rs.drop 1 else rs }

/-- `History.Len()`. -/
def History.Len (h : History) : ℕ := h.readings.length

/-- `History.Latest()`: `(Reading{}, false)` on an empty buffer, otherwise the
last element paired with `true`. -/
def History.Latest (h : History) : Reading × Bool :=
  match h.readings.getLast? with
  | none => (emptyReading, false)
  | some r => (r, true)

/-- A sequence of `Add` calls, oldest first. -/
def History.addAll (h : History) (rs : List Reading) : History :=
  rs.foldl History.Add h

/-- Timestamps strictly increase along a list of readings. -/
def TsIncreasing (rs : List Reading) : Prop :=
  rs.Pairwise (fun a b => a.timestamp < b.timestamp)

lemma prune_maxSize (h : History) (now : ℤ) : (h.prune now).maxSize = h.maxSize := rfl

lemma add_maxSize (h : History) (r : Reading) : (h.Add r).maxSize = h.maxSize := rfl

lemma addAll_maxSize (h : History) (rs : List Reading) :
    (h.addAll rs).maxSize = h.maxSize := by
  induction rs generalizing h with
  | nil => rfl
  | cons r rs ih => simpa [History.addAll] using ih (h.Add r)

lemma add_windowSize (h : History) (r : Reading) : (h.Add r).windowSize = h.windowSize := rfl

lemma addAll_windowSize (h : History) (rs : List Reading) :
    (h.addAll rs).windowSize = h.windowSize := by
  induction rs generalizing h with
  | nil => rfl
  | cons r rs ih => simpa [History.addAll] using ih (h.Add r)

lemma prune_length_le (h : History) (now : ℤ) :
    (h.prune now).readings.length ≤ h.readings.length := by
  simp only [History.prune, List.length_drop]
  omega

/-- The buffer contents after one `Add`, with the let-bindings resolved. -/
lemma add_readings (h : History) (r : Reading) :
    (h.Add r).readings =
      if h.maxSize < (h.prune r.timestamp).readings.length + 1
      then ((h.prune r.timestamp).readings ++ [r]).drop 1
      else (h.prune r.timestamp).readings ++ [r] := by
  simp [History.Add, History.prune]

lemma add_len_le (h : History) (r : Reading)
    (hlen : h.readings.length ≤ h.maxSize) :
    (h.Add r).readings.length ≤ h.maxSize := by
  have hp := prune_length_le h r.timestamp
  rw [add_readings]
  split
  · next hgt =>
    simp only [List.length_drop, List.length_append, List.length_cons, List.length_nil]
    omega
  · next hle =>
    simp only [not_lt] at hle
    simp only [List.length_append, List.length_cons, List.length_nil]
    omega

lemma addAll_len_le (h : History) (rs : List Reading)
    (hlen : h.readings.length ≤ h.maxSize) :
    (h.addAll rs).readings.length ≤ h.maxSize := by
  induction rs generalizing h with
  | nil => simpa [History.addAll]
  | cons r rs ih =>
    have h1 : (h.Add r).readings.length ≤ (h.Add r).maxSize := by
      simpa [add_maxSize] using add_len_le h r hlen
    simpa [History.addAll, add_maxSize] using ih (h.Add r) h1

/-- C1: for every capacity, window and sequence of `Add` calls with strictly
increasing timestamps, the number of stored entries after the adds never
exceeds the capacity fixed at construction. -/
theorem history_add_len_le_capacity (maxSize : ℕ) (windowSize : ℤ)
    (rs : List Reading) (hinc : TsIncreasing rs) :
    ((NewHistory maxSize windowSize).addAll rs).Len ≤ maxSize := by
  have := addAll_len_le (NewHistory maxSize windowSize) rs (by simp [NewHistory])
  simpa [History.Len, NewHistory, addAll_maxSize] using this

/-- Witness for C1 at a concrete capacity-1 history receiving two readings. -/
theorem history_add_len_le_capacity_witness :
    ((NewHistory 1 10).addAll
        [{ emptyReading with watts := 5, timestamp := 0 },
         { emptyReading with watts := 7, timestamp := 3 }]).Len ≤ 1 :=
  history_add_len_le_capacity 1 10 _ (by
    constructor
    · intro b hb
      simp only [List.mem_singleton] at hb
      subst hb
      decide
    · exact List.pairwise_singleton _ _)

/-- C10: for every history with capacity at least 1 and every reading, the
buffer is non-empty immediately after `Add` and `Latest` returns the reading
just added, paired with `true`. -/
theorem history_add_latest (h : History) (r : Reading) (hcap : 1 ≤ h.maxSize) :
    (h.Add r).Len ≠ 0 ∧ (h.Add r).Latest = (r, true) := by
  have hlast : (h.Add r).readings.getLast? = some r := by
    rw [add_readings]
    split
    · next hgt =>
      have hlen : 1 ≤ (h.prune r.timestamp).readings.length := by omega
      rw [List.drop_append_of_le_length hlen]
      exact List.getLast?_concat _
    · exact List.getLast?_concat _
  constructor
  · intro hn
    have : (h.Add r).readings = [] := List.length_eq_zero.mp hn
    rw [this] at hlast
    simp at hlast
  · simp [History.Latest, hlast]

/-- Witness for C10 at a concrete history holding one older reading. -/
theorem history_add_latest_witness :
    (((NewHistory 1 10).Add { emptyReading with watts := 5, timestamp := 0 }).Add
        { emptyReading with watts := 7, timestamp := 3 }).Latest =
      ({ emptyReading with watts := 7, timestamp := 3 }, true) :=
  (history_add_latest ((NewHistory 1 10).Add { emptyReading with watts := 5, timestamp := 0 })
    { emptyReading with watts := 7, timestamp := 3 } (by decide)).2

lemma add_readings_sublist (h : History) (r : Reading) :
    (h.Add r).readings.Sublist (h.readings ++ [r]) := by
  have h1 : (h.prune r.timestamp).readings.Sublist h.readings := List.drop_sublist _ _
  have h2 : ((h.prune r.timestamp).readings ++ [r]).Sublist (h.readings ++ [r]) :=
    h1.append_right [r]
  rw [add_readings]
  split
  · exact (List.drop_sublist 1 _).trans h2
  · exact h2

lemma addAll_readings_sublist (h : History) (rs : List Reading) :
    (h.addAll rs).readings.Sublist (h.readings ++ rs) := by
  induction rs generalizing h with
  | nil => simpa [History.addAll] using List.Sublist.refl _
  | cons r rs ih =>
    have h1 : ((h.Add r).addAll rs).readings.Sublist ((h.Add r).readings ++ rs) :=
      ih (h.Add r)
    have h2 : ((h.Add r).readings ++ rs).Sublist ((h.readings ++ [r]) ++ rs) :=
      (add_readings_sublist h r).append_right rs
    have := h1.trans h2
    simpa [History.addAll, List.append_assoc] using this

/-- Every reading surviving the prune scan of a timestamp-sorted buffer lies
strictly inside the window: its timestamp is after the cutoff. -/
lemma mem_drop_pruneIdx (cutoff : ℤ) (l : List Reading)
    (hs : l.Pairwise (fun a b => a.timestamp < b.timestamp)) :
    ∀ e ∈ l.drop (pruneIdx cutoff l), cutoff < e.timestamp := by
  induction l with
  | nil => simp [pruneIdx]
  | cons hd tl ih =>
    rw [List.pairwise_cons] at hs
    intro e he
    by_cases hhd : cutoff < hd.timestamp
    · rw [pruneIdx, if_pos hhd, List.drop_zero] at he
      rcases List.mem_cons.mp he with rfl | htl
      · exact hhd
      · exact hhd.trans (hs.1 e htl)
    · rw [pruneIdx, if_neg hhd, List.drop_succ_cons] at he
      exact ih hs.2 e he

/-- The concrete reading at t=0s, 10 W, from the spec's pruning example. -/
def r10 : Reading := { emptyReading with watts := 10, timestamp := 0 }

/-- The concrete reading at t=1s, 20 W, from the spec's pruning example. -/
def r20 : Reading := { emptyReading with watts := 20, timestamp := 1 }

/-- The concrete reading at t=4s, 30 W, from the spec's pruning example. -/
def r30 : Reading := { emptyReading with watts := 30, timestamp := 4 }

/-- C2: for every sequence of `Add` calls with strictly increasing timestamps
into a history with a non-negative window, every entry retained after the last
`Add` is within `window` of the most recently added reading's timestamp (the
prune is anchored to the new reading, not to a wall clock); and, concretely,
with `window` 2 s, adding 10 W at t=0 s, 20 W at t=1 s and 30 W at t=4 s
leaves exactly the single 30 W entry. -/
theorem history_window_invariant (maxSize : ℕ) (w : ℤ) (hw : 0 ≤ w)
    (rs : List Reading) (r : Reading) (hinc : TsIncreasing (rs ++ [r])) :
    (∀ e ∈ ((NewHistory maxSize w).addAll (rs ++ [r])).readings,
        r.timestamp - e.timestamp ≤ w) ∧
      ((NewHistory 10 2).addAll [r10, r20, r30]).readings = [r30] := by
  refine ⟨?_, by decide⟩
  set H := (NewHistory maxSize w).addAll rs with hH
  have hfold : (NewHistory maxSize w).addAll (rs ++ [r]) = H.Add r := by
    simp [History.addAll, List.foldl_append, hH]
  have hsub : H.readings.Sublist rs := by
    simpa [NewHistory] using addAll_readings_sublist (NewHistory maxSize w) rs
  have hpairH : H.readings.Pairwise (fun a b => a.timestamp < b.timestamp) :=
    ((List.pairwise_append.mp hinc).1).sublist hsub
  have hwin : H.windowSize = w := by
    simpa [NewHistory] using addAll_windowSize (NewHistory maxSize w) rs
  intro e he
  rw [hfold, add_readings] at he
  have hmem : e ∈ (H.prune r.timestamp).readings ++ [r] := by
    split at he
    · exact List.mem_of_mem_drop he
    · exact he
  rcases List.mem_append.mp hmem with hpm | hr
  · have := mem_drop_pruneIdx (r.timestamp - H.windowSize) H.readings hpairH e
      (by simpa [History.prune] using hpm)
    rw [hwin] at this
    omega
  · rw [List.mem_singleton.mp hr]
    omega

/-- Witness for C2: the spec's concrete pruning example, derived from the
theorem applied at window 2 with the three example readings. -/
theorem history_window_invariant_witness :
    ((NewHistory 10 2).addAll [r10, r20, r30]).readings = [r30] :=
  (history_window_invariant 10 2 (by norm_num) [r10, r20] r30 (by
    unfold TsIncreasing
    decide)).2

/-! ## History.Trend: linear-regression slope -/

/-- The `sumX` accumulator of `History.Trend`'s loop (`x = float64(i)`). -/
def sumX (l : List Reading) : ℚ := (l.enum.map fun p => (p.1 : ℚ)).sum

/-- The `sumY` accumulator of `History.Trend`'s loop (`y = r.Watts`). -/
def sumY (l : List Reading) : ℚ := (l.enum.map fun p => p.2.watts).sum

/-- The `sumXY` accumulator of `History.Trend`'s loop. -/
def sumXY (l : List Reading) : ℚ := (l.enum.map fun p => (p.1 : ℚ) * p.2.watts).sum

/-- The `sumX2` accumulator of `History.Trend`'s loop. -/
def sumX2 (l : List Reading) : ℚ := (l.enum.map fun p => (p.1 : ℚ) * (p.1 : ℚ)).sum

/-- The `denominator` computed by `History.Trend`: `nf*sumX2 - sumX*sumX`. -/
def trendDenominator (l : List Reading) : ℚ :=
  (l.length : ℚ) * sumX2 l - sumX l * sumX l

/-- `History.Trend()`: 0 for fewer than two readings, 0 when the denominator is
zero, otherwise the regression slope `(nf*sumXY - sumX*sumY) / denominator`. -/
def History.Trend (h : History) : ℚ :=
  if h.readings.length < 2 then 0
  else if trendDenominator h.readings = 0 then 0
  else ((h.readings.length : ℚ) * sumXY h.readings - sumX h.readings * sumY h.readings) /
    trendDenominator h.readings

/-- The ordinal positions `0..n-1` as rationals. -/
def indexList (n : ℕ) : List ℚ := (List.range n).map fun i : ℕ => (i : ℚ)

/-- Mean of the ordinal positions `0..n-1`. -/
def xbarOf (n : ℕ) : ℚ := (indexList n).sum / (n : ℚ)

/-- Centered index variance numerator `Σ (x_i - x̄)²` for positions `0..n-1`. -/
def sxxOf (n : ℕ) : ℚ :=
  ((indexList n).map fun x => (x - xbarOf n) * (x - xbarOf n)).sum

/-- Mean of the observed values. -/
def ybarOf (ys : List ℚ) : ℚ := ys.sum / (ys.length : ℚ)

/-- Centered covariance numerator `Σ (x_i - x̄)(y_i - ȳ)` of values against
their ordinal positions. -/
def sxyOf (ys : List ℚ) : ℚ :=
  (((indexList ys.length).zip ys).map
    fun p => (p.1 - xbarOf ys.length) * (p.2 - ybarOf ys)).sum

/-- Spec-side definition, following the spec's words: the ordinary-least-squares
slope of the fit `y = a + slope·x` of the values `ys` against their ordinal
positions `0..n-1`, in its textbook centered form `Σ(xᵢ-x̄)(yᵢ-ȳ) / Σ(xᵢ-x̄)²`,
with 0 for fewer than two observations or a degenerate index variance. -/
def olsSlope (ys : List ℚ) : ℚ :=
  if ys.length < 2 then 0
  else if sxxOf ys.length = 0 then 0
  else sxyOf ys / sxxOf ys.length

lemma sum_map_centered_mul (ps : List (ℚ × ℚ)) (a b : ℚ) :
    (ps.map fun p => (p.1 - a) * (p.2 - b)).sum =
      (ps.map fun p => p.1 * p.2).sum - a * (ps.map fun p => p.2).sum
        - b * (ps.map fun p => p.1).sum + (ps.length : ℚ) * (a * b) := by
  induction ps with
  | nil => simp
  | cons p ps ih =>
    simp only [List.map_cons, List.sum_cons, ih, List.length_cons]
    push_cast
    ring

lemma sum_map_centered_sq (xs : List ℚ) (a : ℚ) :
    (xs.map fun x => (x - a) * (x - a)).sum =
      (xs.map fun x => x * x).sum - 2 * a * xs.sum + (xs.length : ℚ) * (a * a) := by
  induction xs with
  | nil => simp
  | cons x xs ih =>
    simp only [List.map_cons, List.sum_cons, ih, List.length_cons]
    push_cast
    ring

lemma map_zip_map_map (c : ℕ → ℚ) (w : Reading → ℚ) (f : ℚ → ℚ → ℚ) :
    ∀ (ns : List ℕ) (l : List Reading),
      (((ns.map c).zip (l.map w)).map fun p => f p.1 p.2).sum =
        ((ns.zip l).map fun p => f (c p.1) (w p.2)).sum
  | [], _ => by simp
  | _ :: _, [] => by simp
  | n :: ns, r :: l => by
    simp only [List.map_cons, List.zip_cons_cons, List.sum_cons,
      map_zip_map_map c w f ns l]

lemma enum_sum_eq (l : List Reading) (f : ℚ → ℚ → ℚ) :
    (l.enum.map fun p => f (p.1 : ℚ) p.2.watts).sum =
      (((indexList l.length).zip (l.map fun r => r.watts)).map fun p => f p.1 p.2).sum := by
  rw [List.enum_eq_zip_range, indexList, map_zip_map_map]

lemma indexList_length (n : ℕ) : (indexList n).length = n := by
  rw [indexList, List.length_map, List.length_range]

lemma zip_index_length (l : List Reading) :
    ((indexList l.length).zip (l.map fun r => r.watts)).length = l.length := by
  simp [List.length_zip, indexList_length]

lemma zip_index_fst (l : List Reading) :
    (((indexList l.length).zip (l.map fun r => r.watts)).map fun p => p.1).sum =
      (indexList l.length).sum := by
  have : (((indexList l.length).zip (l.map fun r => r.watts)).map Prod.fst) =
      indexList l.length :=
    List.map_fst_zip _ _ (by simp [indexList_length])
  simpa using congrArg List.sum this

lemma zip_index_snd (l : List Reading) :
    (((indexList l.length).zip (l.map fun r => r.watts)).map fun p => p.2).sum =
      (l.map fun r => r.watts).sum := by
  have : (((indexList l.length).zip (l.map fun r => r.watts)).map Prod.snd) =
      l.map fun r => r.watts :=
    List.map_snd_zip _ _ (by simp [indexList_length])
  simpa using congrArg List.sum this

lemma sumX_eq (l : List Reading) : sumX l = (indexList l.length).sum := by
  rw [sumX, enum_sum_eq l fun x _ => x, zip_index_fst]

lemma sumY_eq (l : List Reading) : sumY l = (l.map fun r => r.watts).sum := by
  rw [sumY, enum_sum_eq l fun _ y => y, zip_index_snd]

lemma sumXY_eq (l : List Reading) :
    sumXY l =
      (((indexList l.length).zip (l.map fun r => r.watts)).map fun p => p.1 * p.2).sum := by
  rw [sumXY, enum_sum_eq l fun x y => x * y]

lemma sumX2_eq (l : List Reading) :
    sumX2 l = ((indexList l.length).map fun x => x * x).sum := by
  rw [sumX2, enum_sum_eq l fun x _ => x * x]
  have : ((indexList l.length).zip (l.map fun r => r.watts)).map (fun p => p.1 * p.1) =
      (((indexList l.length).zip (l.map fun r => r.watts)).map Prod.fst).map fun x => x * x := by
    rw [List.map_map]
    rfl
  rw [this, List.map_fst_zip _ _ (by simp [indexList_length])]

/-- The code's pooled regression formula agrees with the centered
ordinary-least-squares slope (list-level statement). -/
lemma trend_list_eq (l : List Reading) :
    (if l.length < 2 then 0
      else if trendDenominator l = 0 then 0
      else ((l.length : ℚ) * sumXY l - sumX l * sumY l) / trendDenominator l) =
      olsSlope (l.map fun r => r.watts) := by
  have hyl : (l.map fun r => r.watts).length = l.length := List.length_map _ _
  by_cases hn : l.length < 2
  · rw [olsSlope, hyl, if_pos hn, if_pos hn]
  · have hq : (l.length : ℚ) ≠ 0 := Nat.cast_ne_zero.mpr (by omega)
    have hsxx : (l.length : ℚ) * sxxOf l.length = trendDenominator l := by
      rw [sxxOf, sum_map_centered_sq, xbarOf, ← sumX_eq, ← sumX2_eq, indexList_length,
        trendDenominator]
      field_simp
      ring
    have hsxy : (l.length : ℚ) * sxyOf (l.map fun r => r.watts) =
        (l.length : ℚ) * sumXY l - sumX l * sumY l := by
      rw [sxyOf, hyl, sum_map_centered_mul, xbarOf, ybarOf, hyl, ← sumX_eq, ← sumY_eq,
        ← sumXY_eq, zip_index_fst, zip_index_snd, ← sumX_eq, ← sumY_eq, zip_index_length]
      field_simp
      ring
    rw [olsSlope, hyl, if_neg hn, if_neg hn]
    by_cases h0 : sxxOf l.length = 0
    · rw [if_pos h0, if_pos (show trendDenominator l = 0 by rw [← hsxx, h0, mul_zero])]
    · have hden : trendDenominator l ≠ 0 := by
        rw [← hsxx]
        exact mul_ne_zero hq h0
      rw [if_neg hden, if_neg h0, ← hsxx, ← hsxy, mul_div_mul_left _ _ hq]

/-- The code's pooled regression formula agrees with the centered
ordinary-least-squares slope. -/
lemma trend_eq_olsSlope (h : History) :
    h.Trend = olsSlope (h.readings.map fun r => r.watts) :=
  trend_list_eq h.readings

/-- A history whose entries carry the given watt values in order (timestamps
and flags immaterial to `Trend`). -/
def histOf (ws : List ℚ) : History :=
  { readings := ws.map fun w => { emptyReading with watts := w },
    maxSize := 10, windowSize := 10 }

/-- C3: `Trend()` returns the ordinary-least-squares slope of watts against
ordinal position 0..n-1; it returns 0 for fewer than two entries and 0 when
the index variance term (the code's `denominator`) is degenerate; it is
strictly positive for watt sequence 10,20,30,40, strictly negative for
40,30,20,10, and exactly 0 for four identical watt values. -/
theorem history_trend_ols :
    (∀ h : History, h.Trend = olsSlope (h.readings.map fun r => r.watts)) ∧
      (∀ h : History, h.readings.length < 2 → h.Trend = 0) ∧
      (∀ h : History, trendDenominator h.readings = 0 → h.Trend = 0) ∧
      (∀ h : History, (h.readings.map fun r => r.watts) = [10, 20, 30, 40] → 0 < h.Trend) ∧
      (∀ h : History, (h.readings.map fun r => r.watts) = [40, 30, 20, 10] → h.Trend < 0) ∧
      (∀ (h : History) (w : ℚ), (h.readings.map fun r => r.watts) = [w, w, w, w] →
        h.Trend = 0) := by
  have hlow : ∀ h : History, h.readings.length < 2 → h.Trend = 0 := by
    intro h hn
    rw [History.Trend, if_pos hn]
  refine ⟨trend_eq_olsSlope, hlow, ?_, ?_, ?_, ?_⟩
  · intro h hden
    rw [History.Trend, hden]
    simp
  · intro h hmap
    rw [trend_eq_olsSlope, hmap]
    have hr : List.range 4 = [0, 1, 2, 3] := rfl
    norm_num [olsSlope, sxyOf, sxxOf, ybarOf, xbarOf, indexList, hr]
  · intro h hmap
    rw [trend_eq_olsSlope, hmap]
    have hr : List.range 4 = [0, 1, 2, 3] := rfl
    norm_num [olsSlope, sxyOf, sxxOf, ybarOf, xbarOf, indexList, hr]
  · intro h w hmap
    rw [trend_eq_olsSlope, hmap]
    have hr : List.range 4 = [0, 1, 2, 3] := rfl
    have hzero : sxyOf [w, w, w, w] = 0 := by
      simp only [sxyOf, ybarOf, xbarOf, indexList, hr, List.length_cons, List.length_nil,
        List.map_cons, List.map_nil, List.zip_cons_cons, List.zip_nil_right, List.sum_cons,
        List.sum_nil]
      push_cast
      ring
    rw [olsSlope, if_neg (by simp), hzero]
    split
    · rfl
    · rw [zero_div]

/-- Witness for C3 at concrete histories of 1, 0, and 4 entries. -/
theorem history_trend_ols_witness :
    (histOf [5]).Trend = 0 ∧ (histOf []).Trend = 0 ∧
      0 < (histOf [10, 20, 30, 40]).Trend ∧ (histOf [40, 30, 20, 10]).Trend < 0 ∧
      (histOf [7, 7, 7, 7]).Trend = 0 ∧
      (histOf [10, 20, 30, 40]).Trend =
        olsSlope ((histOf [10, 20, 30, 40]).readings.map fun r => r.watts) :=
  ⟨history_trend_ols.2.1 _ (by decide),
    history_trend_ols.2.2.1 _ (by norm_num [trendDenominator, sumX2, sumX, histOf]),
    history_trend_ols.2.2.2.1 _ (by decide),
    history_trend_ols.2.2.2.2.1 _ (by decide),
    history_trend_ols.2.2.2.2.2 _ 7 (by decide),
    history_trend_ols.1 _⟩

/-! ## Go string and number primitives used by the monitors -/

/-- `strings.Contains`: the needle occurs as a contiguous substring. -/
def containsSub (needle : List Char) : List Char → Bool
  | [] => needle.isEmpty
  | c :: tl => needle.isPrefixOf (c :: tl) || containsSub needle tl

/-- The character class of Go's regexp `\s`, namely `[\t\n\f\r ]`. -/
def reSpace (c : Char) : Bool :=
  c = ' ' || c = '\t' || c = '\n' || c = Char.ofNat 12 || c = '\r'

/-- `unicode.IsSpace` on the ASCII range (what `strings.TrimSpace` trims). -/
def goSpace (c : Char) : Bool :=
  c = ' ' || c = '\t' || c = '\n' || c = Char.ofNat 11 || c = Char.ofNat 12 || c = '\r'

/-- `strings.TrimSpace` (ASCII inputs). -/
def goTrimSpace (cs : List Char) : List Char :=
  ((cs.dropWhile goSpace).reverse.dropWhile goSpace).reverse

/-- Numeric value of a decimal digit string. -/
def digitsVal (cs : List Char) : ℕ := cs.foldl (fun a c => 10 * a + (c.toNat - 48)) 0

/-- `strconv.ParseUint(s, 10, 64)`: succeeds exactly on non-empty all-digit
strings whose value fits in 64 bits (no sign prefix is permitted; out-of-range
numerals report a range error, i.e. `none` here). -/
def parseUint64 (cs : List Char) : Option ℕ :=
  if cs ≠ [] ∧ cs.all Char.isDigit then
    if digitsVal cs < 2 ^ 64 then some (digitsVal cs) else none
  else none

/-- Go's conversion `int64(v)` of a `uint64` value: wraps modulo `2^64` into
the signed 64-bit range. -/
def int64ofUint64 (v : ℕ) : ℤ := if v < 2 ^ 63 then (v : ℤ) else (v : ℤ) - 2 ^ 64

/-- `parseIoregSigned` (monitor_darwin.go): parse as unsigned 64-bit; a value
above `math.MaxInt32` that fits in 32 bits is reinterpreted as a 32-bit
two's-complement value (`int64(int32(v))`); otherwise `int64(v)`. -/
def parseIoregSigned (cs : List Char) : Option ℤ :=
  match parseUint64 cs with
  | none => none
  | some v =>
    if 2 ^ 31 - 1 < v ∧ v ≤ 2 ^ 32 - 1 then some ((v : ℤ) - 2 ^ 32)
    else some (int64ofUint64 v)

/-- C4 counterexample: the claim says values that are not 32-bit reinterpreted
are returned as-is and that only non-numeric input fails, but the all-digit
string for `2^64 - 1` decodes to `-1` (64-bit wrap-around, not as-is), and the
all-digit — hence numeric — string for `2^64` fails to parse. -/
theorem parseIoregSigned_claim_counterexample :
    parseIoregSigned "18446744073709551615".toList = some (-1) ∧
      (-1 : ℤ) ≠ (18446744073709551615 : ℤ) ∧
      "18446744073709551616".toList.all Char.isDigit = true ∧
      parseIoregSigned "18446744073709551616".toList = none := by
  refine ⟨by decide, by decide, by decide, by decide⟩

/-- C4 amended: the sign normalizer parses a decimal string as unsigned 64-bit,
failing on non-numeric input and on numeric input outside the unsigned 64-bit
range; a parsed value above the maximum signed 32-bit value that fits in 32
bits unsigned is reinterpreted as signed two's-complement; a parsed value of
`2^63` or more wraps modulo `2^64` into the signed 64-bit range; every other
value is returned as-is.  `"4294967176"` decodes to `-120` and `"1000"` to
`1000` unchanged. -/
theorem parseIoregSigned_characterization (cs : List Char) :
    (parseIoregSigned cs = none ↔
        ¬(cs ≠ [] ∧ cs.all Char.isDigit = true ∧ digitsVal cs < 2 ^ 64)) ∧
      (∀ v : ℕ, parseUint64 cs = some v →
        parseIoregSigned cs =
          some (if 2 ^ 31 - 1 < v ∧ v ≤ 2 ^ 32 - 1 then (v : ℤ) - 2 ^ 32
            else if v < 2 ^ 63 then (v : ℤ) else (v : ℤ) - 2 ^ 64)) ∧
      parseIoregSigned "4294967176".toList = some (-120) ∧
      parseIoregSigned "1000".toList = some 1000 := by
  have hchar : ∀ v : ℕ, parseUint64 cs = some v →
      parseIoregSigned cs =
        some (if 2 ^ 31 - 1 < v ∧ v ≤ 2 ^ 32 - 1 then (v : ℤ) - 2 ^ 32
          else if v < 2 ^ 63 then (v : ℤ) else (v : ℤ) - 2 ^ 64) := by
    intro v hv
    simp only [parseIoregSigned, hv]
    by_cases h32 : 2 ^ 31 - 1 < v ∧ v ≤ 2 ^ 32 - 1
    · rw [if_pos h32, if_pos h32]
    · rw [if_neg h32, if_neg h32, int64ofUint64]
  refine ⟨⟨?_, ?_⟩, hchar, by decide, by decide⟩
  · intro hnone hcontra
    obtain ⟨hne, hdig, hlt⟩ := hcontra
    have hsome : parseUint64 cs = some (digitsVal cs) := by
      rw [parseUint64, if_pos ⟨hne, hdig⟩, if_pos hlt]
    rw [hchar _ hsome] at hnone
    exact Option.noConfusion hnone
  · intro hcontra
    have hn : parseUint64 cs = none := by
      rw [parseUint64]
      by_cases h1 : cs ≠ [] ∧ cs.all Char.isDigit = true
      · rw [if_pos h1]
        by_cases h2 : digitsVal cs < 2 ^ 64
        · exact absurd ⟨h1.1, h1.2, h2⟩ hcontra
        · rw [if_neg h2]
      · rw [if_neg h1]
    simp only [parseIoregSigned, hn]

/-- Witness for C4's amended characterization at the concrete inputs
`"4294967176"` (reinterpreted) and `"abc"` (not parseable). -/
theorem parseIoregSigned_characterization_witness :
    parseIoregSigned "4294967176".toList =
      some (if 2 ^ 31 - 1 < (4294967176 : ℕ) ∧ (4294967176 : ℕ) ≤ 2 ^ 32 - 1
        then ((4294967176 : ℕ) : ℤ) - 2 ^ 32
        else if (4294967176 : ℕ) < 2 ^ 63 then ((4294967176 : ℕ) : ℤ)
        else ((4294967176 : ℕ) : ℤ) - 2 ^ 64) ∧
      (parseIoregSigned "abc".toList = none ↔
        ¬("abc".toList ≠ [] ∧ "abc".toList.all Char.isDigit = true ∧
          digitsVal "abc".toList < 2 ^ 64)) :=
  ⟨(parseIoregSigned_characterization "4294967176".toList).2.1 4294967176 (by decide),
    (parseIoregSigned_characterization "abc".toList).1⟩

/-- The character class `[0-9.]` of the regex float captures. -/
def numCh (c : Char) : Bool := c.isDigit || c = '.'

/-- Exact value of a decimal numeral with an optional single dot and at least
one digit — the validity condition and value of `strconv.ParseFloat` on the
unsigned decimal forms reachable here (regex captures over `[0-9.]` and sysfs
numerals; no exponent/hex/inf forms), as an exact rational. -/
def decimalVal (cs : List Char) : Option ℚ :=
  if cs.any Char.isDigit ∧ cs.all numCh ∧ (cs.filter fun c => c = '.').length ≤ 1 then
    some ((digitsVal (cs.takeWhile Char.isDigit) : ℚ) +
      (digitsVal ((cs.dropWhile Char.isDigit).drop 1) : ℚ) /
        10 ^ ((cs.dropWhile Char.isDigit).drop 1).length)
  else none

/-- `strconv.ParseFloat(s, 64)` on the decimal forms arising here: an optional
sign followed by a decimal numeral. -/
def goParseFloat (cs : List Char) : Option ℚ :=
  match cs with
  | [] => none
  | c :: rest =>
    if c = '-' then (decimalVal rest).map fun q => -q
    else if c = '+' then decimalVal rest
    else decimalVal (c :: rest)

/-- The digits-and-range core of `strconv.Atoi` (= `ParseInt(s, 10, 0)` with
64-bit `int`). -/
def atoiCore (sgn : ℤ) (ds : List Char) : Option ℤ :=
  if ds ≠ [] ∧ ds.all Char.isDigit then
    if -(2 : ℤ) ^ 63 ≤ sgn * digitsVal ds ∧ sgn * digitsVal ds ≤ 2 ^ 63 - 1 then
      some (sgn * digitsVal ds)
    else none
  else none

/-- `strconv.Atoi`: optional sign, digits, signed 64-bit range. -/
def goAtoi (cs : List Char) : Option ℤ :=
  match cs with
  | [] => none
  | c :: rest =>
    if c = '-' then atoiCore (-1) rest
    else if c = '+' then atoiCore 1 rest
    else atoiCore 1 (c :: rest)

/-- `strings.SplitN(line, "=", 2)` when it yields two parts (`none` models the
single-part case the caller skips). -/
def splitEq2 (cs : List Char) : Option (List Char × List Char) :=
  if '=' ∈ cs then
    some (cs.takeWhile (fun c => c != '='), (cs.dropWhile (fun c => c != '=')).drop 1)
  else none

/-! ## Windows monitor (monitor_windows.go) -/

/-- One iteration of the `parseBatteryInfo` line loop. -/
def parseBatteryLine (r : Reading) (line : List Char) : Reading :=
  let t := goTrimSpace line
  if t = [] then r
  else
    match splitEq2 t with
    | none => r
    | some kv =>
      let key := goTrimSpace kv.1
      let val := goTrimSpace kv.2
      if key = "BatteryStatus".toList then
        match goAtoi val with
        | some status =>
          { r with isOnBattery := decide (status = 1),
                   isCharging := decide (2 ≤ status ∧ status ≤ 5 ∧ status ≠ 2) }
        | none => r
      else if key = "EstimatedChargeRemaining".toList then
        match goParseFloat val with
        | some pct => { r with batteryPercent := pct }
        | none => r
      else if key = "CurrentReading".toList then
        match goParseFloat val with
        | some mw => if 0 < mw then { r with watts := mw / 1000 } else r
        | none => r
      else r

/-- `WindowsMonitor.parseBatteryInfo`: fold the per-line parser over the lines
of the key=value report. -/
def parseBatteryInfo (output : List Char) (r : Reading) : Reading :=
  (output.splitOn '\n').foldl parseBatteryLine r

/-- Leftmost-first match of Go's pattern `lit(\d+)`: the capture at the first
position where the literal is followed by at least one digit (the capture is
the maximal digit run: `\d+` is greedy and nothing follows it in the pattern). -/
def findKeyDigits (lit : List Char) : List Char → Option (List Char)
  | [] => none
  | c :: tl =>
    if lit.isPrefixOf (c :: tl) ∧ ((c :: tl).drop lit.length).takeWhile Char.isDigit ≠ [] then
      some (((c :: tl).drop lit.length).takeWhile Char.isDigit)
    else findKeyDigits lit tl

/-- `WindowsMonitor.getEstimatedWatts`: the `DischargeRate` value in watts when
positive, else 0 (`Voltage` is parsed by the code but unused). -/
def getEstimatedWatts (output : List Char) : ℚ :=
  let dischargeRate : ℚ :=
    match (findKeyDigits "DischargeRate=".toList output).bind goParseFloat with
    | some v => v / 1000
    | none => 0
  if 0 < dischargeRate then dischargeRate else 0

/-- The `Reading` that `WindowsMonitor.Read` starts from. -/
def windowsReading0 (ts : ℤ) : Reading :=
  { watts := 0, timestamp := ts, isOnBattery := false, batteryPercent := -1,
    isCharging := false, source := "windows-wmi" }

/-- `WindowsMonitor.Read`, abstracted over the outputs of its two PowerShell
invocations (`none` models a failed command): parse the battery report when
available, then unconditionally overwrite the watt figure with the estimate
result whenever the estimate query succeeds. -/
def windowsRead (ts : ℤ) (batteryOut estOut : Option (List Char)) : Reading :=
  let r1 := match batteryOut with
    | some o => parseBatteryInfo o (windowsReading0 ts)
    | none => windowsReading0 ts
  match estOut with
  | some o => { r1 with watts := getEstimatedWatts o }
  | none => r1

/-- C6 (code bug): the battery query reports a positive 5 W power-meter
reading (`CurrentReading=5000`), and `parseBatteryInfo` records it; but when
the estimate query succeeds while carrying no discharge-rate field, `Read`
unconditionally overwrites the wattage with the 0 estimate, so the positive
power-meter reading is replaced by 0 — contradicting the claimed priority
(power meter if positive, else discharge rate, else 0). -/
theorem windowsRead_meter_overwritten :
    (parseBatteryInfo "CurrentReading=5000".toList (windowsReading0 0)).watts = 5 ∧
      (windowsRead 0 (some "CurrentReading=5000".toList) (some [])).watts = 0 := by
  have hs : "CurrentReading=5000".toList.splitOn '\n' = ["CurrentReading=5000".toList] := by
    decide
  simp at hs
  constructor
  · simp [parseBatteryInfo, hs, parseBatteryLine, goTrimSpace, goSpace, splitEq2,
      goParseFloat, decimalVal, digitsVal, numCh, goAtoi, windowsReading0]
    norm_num
  · simp [windowsRead, getEstimatedWatts, findKeyDigits]

lemma dropWhile_eq_self_of_all {p : Char → Bool} {l : List Char}
    (h : ∀ c ∈ l, p c = false) : l.dropWhile p = l := by
  cases l with
  | nil => rfl
  | cons c tl => simp [List.dropWhile_cons, h c (List.mem_cons_self c tl)]

lemma goTrimSpace_eq_self {l : List Char} (h : ∀ c ∈ l, goSpace c = false) :
    goTrimSpace l = l := by
  rw [goTrimSpace, dropWhile_eq_self_of_all h,
    dropWhile_eq_self_of_all fun c hc => h c (List.mem_reverse.mp hc),
    List.reverse_reverse]

lemma takeWhile_append_all {p : Char → Bool} {a : List Char} (b : List Char)
    (h : ∀ c ∈ a, p c = true) : (a ++ b).takeWhile p = a ++ b.takeWhile p := by
  induction a with
  | nil => simp
  | cons c tl ih =>
    simp [List.takeWhile_cons, h c (List.mem_cons_self c tl),
      ih fun x hx => h x (List.mem_cons_of_mem c hx)]

lemma dropWhile_append_all {p : Char → Bool} {a : List Char} (b : List Char)
    (h : ∀ c ∈ a, p c = true) : (a ++ b).dropWhile p = b.dropWhile p := by
  induction a with
  | nil => simp
  | cons c tl ih =>
    simp [List.dropWhile_cons, h c (List.mem_cons_self c tl),
      ih fun x hx => h x (List.mem_cons_of_mem c hx)]

lemma digit_not_space (c : Char) (h : c.isDigit = true) : goSpace c = false := by
  cases hgoal : goSpace c
  · rfl
  · exfalso
    rw [goSpace] at hgoal
    simp only [Bool.or_eq_true, decide_eq_true_eq] at hgoal
    rcases hgoal with ((((h1 | h1) | h1) | h1) | h1) | h1 <;> subst h1 <;>
      exact absurd h (by decide)

/-- C8 counterexample: status code 6 is non-discharging (≠ 1) and above the
threshold 2, yet the parser reports it as not charging (only 3..5 charge). -/
theorem battery_status_six_not_charging :
    (2 : ℤ) < 6 ∧ (6 : ℤ) ≠ 1 ∧
      (parseBatteryInfo "BatteryStatus=6".toList (windowsReading0 0)).isCharging = false ∧
      (parseBatteryInfo "BatteryStatus=4".toList (windowsReading0 0)).isCharging = true := by
  refine ⟨by decide, by decide, by decide, by decide⟩

/-- C8 amended: for every parsed numeric battery-status code `s`, the reading
has `IsOnBattery` exactly when `s = 1`, and `IsCharging` exactly for the codes
3, 4 and 5 (code 2 means on AC and not charging; codes above 5, like all other
codes outside 3..5, are also mapped to not charging). -/
theorem parseBatteryStatus_mapping (r : Reading) (v : List Char) (s : ℤ)
    (hv : v.all Char.isDigit = true) (hs : goAtoi v = some s) :
    parseBatteryLine r ("BatteryStatus=".toList ++ v) =
      { r with isOnBattery := decide (s = 1),
               isCharging := decide (2 ≤ s ∧ s ≤ 5 ∧ s ≠ 2) } := by
  have hdig : ∀ c ∈ v, Char.isDigit c = true := fun c hc => by
    have := List.all_eq_true.mp hv c hc
    simpa using this
  have hns : ∀ c ∈ "BatteryStatus=".toList ++ v, goSpace c = false := by
    intro c hc
    rcases List.mem_append.mp hc with h1 | h2
    · exact (by decide : ∀ x ∈ "BatteryStatus=".toList, goSpace x = false) c h1
    · exact digit_not_space c (hdig c h2)
  have htrim := goTrimSpace_eq_self hns
  have hvtrim := goTrimSpace_eq_self fun c hc => digit_not_space c (hdig c hc)
  have hl : "BatteryStatus=".toList ++ v = "BatteryStatus".toList ++ '=' :: v := rfl
  have hsplit : splitEq2 ("BatteryStatus=".toList ++ v) =
      some ("BatteryStatus".toList, v) := by
    rw [splitEq2,
      if_pos (List.mem_append.mpr (Or.inl (by decide : '=' ∈ "BatteryStatus=".toList))),
      hl, takeWhile_append_all _ (by decide), dropWhile_append_all _ (by decide)]
    simp [List.takeWhile_cons, List.dropWhile_cons]
  have hk : goTrimSpace "BatteryStatus".toList = "BatteryStatus".toList := by decide
  simp only [parseBatteryLine, htrim, hsplit, hk, hvtrim, hs]
  simp

/-- Witness for C8's amended mapping at the concrete charging code 3. -/
theorem parseBatteryStatus_mapping_witness :
    parseBatteryLine (windowsReading0 0) ("BatteryStatus=".toList ++ "3".toList) =
      { (windowsReading0 0) with
          isOnBattery := decide ((3 : ℤ) = 1),
          isCharging := decide (2 ≤ (3 : ℤ) ∧ (3 : ℤ) ≤ 5 ∧ (3 : ℤ) ≠ 2) } :=
  parseBatteryStatus_mapping (windowsReading0 0) "3".toList 3 (by decide) (by decide)

/-! ## Darwin pmset parsing (monitor_darwin.go) -/

/-- Leftmost match of `(\d+)%`: the first digit run immediately followed by a
percent sign (a shorter run inside the same maximal run cannot match, because
the character after it is again a digit, not `%`). -/
def percentCap : List Char → Option (List Char)
  | [] => none
  | c :: tl =>
    if c.isDigit ∧
        ((c :: tl).drop ((c :: tl).takeWhile Char.isDigit).length).head? = some '%' then
      some ((c :: tl).takeWhile Char.isDigit)
    else percentCap tl

/-- One iteration of the `parsePmset` line loop: lines mentioning
`InternalBattery` or `%` update the battery percentage, and the charging flag
with "discharging"/"not charging" checked before a bare "charging". -/
def pmsetLine (r : Reading) (line : List Char) : Reading :=
  if containsSub "InternalBattery".toList line || containsSub "%".toList line then
    let r1 := match (percentCap line).bind goParseFloat with
      | some pct => { r with batteryPercent := pct }
      | none => r
    let ll := line.map Char.toLower
    if containsSub "discharging".toList ll || containsSub "not charging".toList ll then
      { r1 with isCharging := false }
    else if containsSub "charging".toList ll then
      { r1 with isCharging := true }
    else r1
  else r

/-- `DarwinMonitor.parsePmset`: the power source comes from the first line
(case-insensitive "battery power" test), then every line runs through the
battery scan. -/
def parsePmset (output : List Char) (r : Reading) : Reading :=
  let lines := output.splitOn '\n'
  let r1 := { r with
    isOnBattery := containsSub "battery power".toList ((lines.headD []).map Char.toLower) }
  lines.foldl pmsetLine r1

/-- C9: in any matched battery line (one mentioning `InternalBattery` or `%`),
the substrings "discharging" or "not charging" take precedence over a bare
"charging": such a line yields `IsCharging = false` even though both contain
"charging" as a substring, while a line containing "charging" without either
of them yields `IsCharging = true`. -/
theorem pmset_discharging_precedence (r : Reading) (line : List Char)
    (hmatch : (containsSub "InternalBattery".toList line ||
      containsSub "%".toList line) = true) :
    ((containsSub "discharging".toList (line.map Char.toLower) ||
        containsSub "not charging".toList (line.map Char.toLower)) = true →
      (pmsetLine r line).isCharging = false) ∧
      (containsSub "discharging".toList (line.map Char.toLower) = false →
        containsSub "not charging".toList (line.map Char.toLower) = false →
        containsSub "charging".toList (line.map Char.toLower) = true →
        (pmsetLine r line).isCharging = true) ∧
      containsSub "charging".toList "discharging".toList = true ∧
      containsSub "charging".toList "not charging".toList = true := by
  refine ⟨?_, ?_, by decide, by decide⟩
  · intro hd
    simp only [pmsetLine, hmatch, hd, if_true]
  · intro h1 h2 h3
    simp only [pmsetLine, hmatch, h1, h2, h3, if_true, Bool.or_self, Bool.or_false,
      Bool.false_or, if_false]
    cases hp : (percentCap line).bind goParseFloat <;> simp [hp]

/-- Witness for C9 on two concrete pmset battery lines, one discharging and
one charging. -/
theorem pmset_discharging_precedence_witness :
    (pmsetLine emptyReading
        " -InternalBattery-0  75%; discharging; 3:00 remaining".toList).isCharging = false ∧
      (pmsetLine emptyReading
        " -InternalBattery-0  75%; charging; 1:30 remaining".toList).isCharging = true :=
  ⟨(pmset_discharging_precedence emptyReading _ (by decide)).1 (by decide),
    (pmset_discharging_precedence emptyReading _ (by decide)).2.1
      (by decide) (by decide) (by decide)⟩

/-! ## Darwin powermetrics parsing (monitor_darwin.go) -/

/-- Match `\s*([\d.]+)\s*mW` at the head of the input and return the capture.
The classes `\s`, `[\d.]` and the literal `mW` are pairwise disjoint, so the
greedy scans compute the unique possible match. -/
def matchNumMW (cs : List Char) : Option (List Char) :=
  let cs1 := cs.dropWhile reSpace
  let num := cs1.takeWhile numCh
  let rest := (cs1.dropWhile numCh).dropWhile reSpace
  if num ≠ [] ∧ "mW".toList.isPrefixOf rest then some num else none

/-- Leftmost-first match of `lit\s*([\d.]+)\s*mW` (the `CPU Power`,
`GPU Power`, `ANE Power` and `Package Power` regexes, whose literal part ends
with the colon). -/
def findPowerCap (lit : List Char) : List Char → Option (List Char)
  | [] => none
  | c :: tl =>
    if lit.isPrefixOf (c :: tl) then
      match matchNumMW ((c :: tl).drop lit.length) with
      | some n => some n
      | none => findPowerCap lit tl
    else findPowerCap lit tl

/-- The `.*?:\s*([\d.]+)\s*mW` tail of the `Combined Power` regex: the lazy
dot-star consumes non-newline characters up to the first colon whose
continuation matches (shortest-first; a colon whose continuation fails is
itself consumed by `.*?`). -/
def lazyColonTail : List Char → Option (List Char)
  | [] => none
  | c :: tl =>
    if c = ':' then
      match matchNumMW tl with
      | some n => some n
      | none => lazyColonTail tl
    else if c = '\n' then none
    else lazyColonTail tl

/-- Leftmost-first match of `Combined Power.*?:\s*([\d.]+)\s*mW`. -/
def findCombinedCap : List Char → Option (List Char)
  | [] => none
  | c :: tl =>
    if "Combined Power".toList.isPrefixOf (c :: tl) then
      match lazyColonTail ((c :: tl).drop "Combined Power".toList.length) with
      | some n => some n
      | none => findCombinedCap tl
    else findCombinedCap tl

/-- `DarwinMonitor.parsePowermetrics`: a combined total is preferred, then a
package total, else the sum of the optional CPU/GPU/ANE components (an absent
or unparsable component contributes the starting 0 of `totalWatts`), each
converted from mW to W. -/
def parsePowermetrics (output : List Char) : ℚ :=
  match (findCombinedCap output).bind decimalVal with
  | some mw => mw / 1000
  | none =>
    match (findPowerCap "Package Power:".toList output).bind decimalVal with
    | some mw => mw / 1000
    | none =>
      (((findPowerCap "CPU Power:".toList output).bind decimalVal).getD 0) / 1000 +
        (((findPowerCap "GPU Power:".toList output).bind decimalVal).getD 0) / 1000 +
        (((findPowerCap "ANE Power:".toList output).bind decimalVal).getD 0) / 1000

/-- C5: the command-output power normalizer prefers a single combined/package
total over the per-subsystem sum — a report containing
`Combined Power (CPU + GPU + ANE): 5432 mW` normalizes to 5.432 W (also when
the per-subsystem lines are present alongside it); a report with only
`CPU Power: 3000 mW`, `GPU Power: 2000 mW`, `ANE Power: 500 mW` and no
combined/package field normalizes to 5.5 W; a report with no recognizable
power field normalizes to 0. -/
theorem parsePowermetrics_normalization :
    parsePowermetrics "Combined Power (CPU + GPU + ANE): 5432 mW".toList = 5432 / 1000 ∧
      parsePowermetrics ("CPU Power: 3000 mW\nGPU Power: 2000 mW\nANE Power: 500 mW\n" ++
        "Combined Power (CPU + GPU + ANE): 5432 mW").toList = 5432 / 1000 ∧
      parsePowermetrics
        "CPU Power: 3000 mW\nGPU Power: 2000 mW\nANE Power: 500 mW".toList = 11 / 2 ∧
      parsePowermetrics "Battery: 95 percent\nNo power fields here".toList = 0 := by
  refine ⟨?_, ?_, ?_, ?_⟩
  · have hc : findCombinedCap
        "Combined Power (CPU + GPU + ANE): 5432 mW".toList = some "5432".toList := by
      decide
    simp at hc
    simp [parsePowermetrics, hc, decimalVal, digitsVal, numCh]
  · have hc : findCombinedCap
        ("CPU Power: 3000 mW\nGPU Power: 2000 mW\nANE Power: 500 mW\n" ++
          "Combined Power (CPU + GPU + ANE): 5432 mW").toList = some "5432".toList := by
      decide
    simp at hc
    simp [parsePowermetrics, hc, decimalVal, digitsVal, numCh]
  · have hc : findCombinedCap
        "CPU Power: 3000 mW\nGPU Power: 2000 mW\nANE Power: 500 mW".toList = none := by
      decide
    have hp : findPowerCap "Package Power:".toList
        "CPU Power: 3000 mW\nGPU Power: 2000 mW\nANE Power: 500 mW".toList = none := by
      decide
    have h1 : findPowerCap "CPU Power:".toList
        "CPU Power: 3000 mW\nGPU Power: 2000 mW\nANE Power: 500 mW".toList =
        some "3000".toList := by decide
    have h2 : findPowerCap "GPU Power:".toList
        "CPU Power: 3000 mW\nGPU Power: 2000 mW\nANE Power: 500 mW".toList =
        some "2000".toList := by decide
    have h3 : findPowerCap "ANE Power:".toList
        "CPU Power: 3000 mW\nGPU Power: 2000 mW\nANE Power: 500 mW".toList =
        some "500".toList := by decide
    simp at hc hp h1 h2 h3
    simp [parsePowermetrics, hc, hp, h1, h2, h3, decimalVal, digitsVal, numCh]
    norm_num
  · have hc : findCombinedCap "Battery: 95 percent\nNo power fields here".toList = none := by
      decide
    have hp : findPowerCap "Package Power:".toList
        "Battery: 95 percent\nNo power fields here".toList = none := by decide
    have h1 : findPowerCap "CPU Power:".toList
        "Battery: 95 percent\nNo power fields here".toList = none := by decide
    have h2 : findPowerCap "GPU Power:".toList
        "Battery: 95 percent\nNo power fields here".toList = none := by decide
    have h3 : findPowerCap "ANE Power:".toList
        "Battery: 95 percent\nNo power fields here".toList = none := by decide
    simp at hc hp h1 h2 h3
    simp [parsePowermetrics, hc, hp, h1, h2, h3]

/-! ## Darwin ioreg parsing (monitor_darwin.go) -/

/-- Leftmost-first match of the ioreg patterns `lit\s*=\s*(\d+)`, where `lit`
is the quoted key (e.g. `"Voltage"`); `\s`, `=` and `\d` are pairwise disjoint
classes, so the greedy scans compute the unique possible match. -/
def findIoregKey (lit : List Char) : List Char → Option (List Char)
  | [] => none
  | c :: tl =>
    if lit.isPrefixOf (c :: tl) then
      match ((c :: tl).drop lit.length).dropWhile reSpace with
      | '=' :: r2 =>
        if (r2.dropWhile reSpace).takeWhile Char.isDigit ≠ [] then
          some ((r2.dropWhile reSpace).takeWhile Char.isDigit)
        else findIoregKey lit tl
      | _ => findIoregKey lit tl
    else findIoregKey lit tl

/-- A signed ioreg telemetry field: the capture put through `parseIoregSigned`. -/
def telemetryField (lit output : List Char) : Option ℤ :=
  (findIoregKey lit output).bind parseIoregSigned

/-- `calculateInputPower`: current-in × voltage-in (mA·mV = µW) as an absolute
watt value; 0 when either field is missing, unparsable or zero. -/
def calculateInputPower (output : List Char) : ℚ :=
  match telemetryField "\"SystemCurrentIn\"".toList output,
      telemetryField "\"SystemVoltageIn\"".toList output with
  | some c, some v =>
    if c = 0 ∨ v = 0 then 0 else |((c : ℚ) * (v : ℚ)) / 1000000|
  | _, _ => 0

/-- `parseTelemetryWattsFromIoreg`: SystemPowerIn, then SystemLoad, then
current×voltage, then BatteryPower; nonzero fields as absolute values in W. -/
def parseTelemetryWatts (output : List Char) : ℚ :=
  match (telemetryField "\"SystemPowerIn\"".toList output).bind
      (fun v => if v ≠ 0 then some (|(v : ℚ)| / 1000) else none) with
  | some w => w
  | none =>
    match (telemetryField "\"SystemLoad\"".toList output).bind
        (fun v => if v ≠ 0 then some (|(v : ℚ)| / 1000) else none) with
    | some w => w
    | none =>
      if 0 < calculateInputPower output then calculateInputPower output
      else
        match telemetryField "\"BatteryPower\"".toList output with
        | some v => if v ≠ 0 then |(v : ℚ)| / 1000 else 0
        | none => 0

/-- `parseWattsFromIoreg`: telemetry watts when positive, else voltage ×
instant amperage with the sign stripped for display. -/
def parseWattsFromIoreg (output : List Char) : ℚ :=
  if 0 < parseTelemetryWatts output then parseTelemetryWatts output
  else
    let amperage : ℚ := match telemetryField "\"InstantAmperage\"".toList output with
      | some v => (v : ℚ) / 1000
      | none => 0
    let voltage : ℚ := match (findIoregKey "\"Voltage\"".toList output).bind goParseFloat with
      | some v => v / 1000
      | none => 0
    if 0 < voltage ∧ amperage ≠ 0 then
      if voltage * amperage < 0 then -(voltage * amperage) else voltage * amperage
    else 0

/-- `estimateWattsFromIoreg`: battery-capacity based estimate at an assumed
11.4 V (exact rational 57/5 here), absolute value. -/
def estimateWattsFromIoreg (output : List Char) : ℚ :=
  let designCapacity : ℚ :=
    match (findIoregKey "\"DesignCapacity\"".toList output).bind goParseFloat with
    | some v => v
    | none => 0
  let currentCapacity : ℚ :=
    match (findIoregKey "\"CurrentCapacity\"".toList output).bind goParseFloat with
    | some v => v
    | none => 0
  let amperage : ℚ := match telemetryField "\"Amperage\"".toList output with
    | some v => (v : ℚ) / 1000
    | none => 0
  if 0 < designCapacity ∧ 0 < currentCapacity ∧ amperage ≠ 0 then
    if (57 / 5 : ℚ) * amperage < 0 then -((57 / 5 : ℚ) * amperage)
    else (57 / 5 : ℚ) * amperage
  else 0

/-- The watt selection of the battery path of `DarwinMonitor.Read`: the ioreg
watts when positive, else the estimate when positive, else the initial 0. -/
def darwinBatteryWatts (ioregOut : List Char) : ℚ :=
  if 0 < parseWattsFromIoreg ioregOut then parseWattsFromIoreg ioregOut
  else if 0 < estimateWattsFromIoreg ioregOut then estimateWattsFromIoreg ioregOut
  else 0

/-- `DarwinMonitor.Read`, abstracted over the cached sub-mode flags and the
raw outputs of its external commands (`none` models a failed command; the
`none` result models the single error return, pmset failing on a battery
system). -/
def darwinRead (usePM hasBattery : Bool) (ts : ℤ)
    (pmOut pmsetOut ioregOut : Option (List Char)) : Option Reading :=
  let r0 : Reading :=
    { watts := 0, timestamp := ts, isOnBattery := false, batteryPercent := -1,
      isCharging := false,
      source := if usePM then "macOS-powermetrics"
        else if !hasBattery then "macOS-desktop" else "macOS-battery" }
  if usePM then
    match pmOut with
    | none => some r0
    | some o => some { r0 with watts := parsePowermetrics o }
  else
    match pmsetOut with
    | none => none
    | some po =>
      let r1 := parsePmset po r0
      if !hasBattery then some r1
      else
        match ioregOut with
        | none => some r1
        | some io => some { r1 with watts := darwinBatteryWatts io }

/-! ## Linux monitor (sysfs) -/

/-- One now/full percentage attempt of `calculateBatteryPercent` (`none`
falls through to the next pair). -/
def pctFrom (nowS fullS : List Char) : Option ℚ :=
  if nowS ≠ [] ∧ fullS ≠ [] then
    match goParseFloat nowS, goParseFloat fullS with
    | some now, some full => if 0 < full then some ((now / full) * 100) else none
    | _, _ => none
  else none

/-- `LinuxMonitor.calculateBatteryPercent`: energy pair, then charge pair,
else the −1 sentinel. -/
def calculateBatteryPercent (eN eF cN cF : List Char) : ℚ :=
  match pctFrom eN eF with
  | some p => p
  | none =>
    match pctFrom cN cF with
    | some p => p
    | none => -1

/-- `LinuxMonitor.calculateWatts`: `power_now` (µW) divided through unchanged
when it parses; else |voltage_now × current_now| (pW) converted to W; else 0. -/
def calculateWatts (powerNow voltageNow currentNow : List Char) : ℚ :=
  match (if powerNow ≠ [] then goParseFloat powerNow else none) with
  | some p => p / 1000000
  | none =>
    if voltageNow ≠ [] ∧ currentNow ≠ [] then
      match goParseFloat voltageNow, goParseFloat currentNow with
      | some v, some c =>
        if (v * c) / 1000000000000 < 0 then -((v * c) / 1000000000000)
        else (v * c) / 1000000000000
      | _, _ => 0
    else 0

/-- `LinuxMonitor.Read`, abstracted over the detected supply paths and the raw
sysfs file contents (`readFile` trims; a missing/unreadable file is `[]`). -/
def linuxRead (hasAC hasBattery : Bool) (ts : ℤ)
    (online capacity status powerNow voltageNow currentNow eN eF cN cF : List Char) :
    Reading :=
  let r0 : Reading :=
    { watts := 0, timestamp := ts, isOnBattery := false, batteryPercent := -1,
      isCharging := false, source := "linux-sysfs" }
  let r1 := if hasAC then { r0 with isOnBattery := decide (goTrimSpace online ≠ "1".toList) }
    else r0
  if hasBattery then
    { r1 with
        batteryPercent :=
          match goParseFloat (goTrimSpace capacity) with
          | some pct => pct
          | none => calculateBatteryPercent (goTrimSpace eN) (goTrimSpace eF)
              (goTrimSpace cN) (goTrimSpace cF),
        isCharging := decide ((goTrimSpace status).map Char.toLower = "charging".toList),
        watts := calculateWatts (goTrimSpace powerNow) (goTrimSpace voltageNow)
          (goTrimSpace currentNow) }
  else r1

lemma parseBatteryLine_watts_nonneg (r : Reading) (line : List Char)
    (h : 0 ≤ r.watts) : 0 ≤ (parseBatteryLine r line).watts := by
  simp only [parseBatteryLine]
  repeat' split
  all_goals try exact h
  all_goals
    rename_i hmw
    exact le_of_lt (div_pos hmw (by norm_num))

lemma parseBatteryInfo_watts_nonneg (output : List Char) (r : Reading)
    (h : 0 ≤ r.watts) : 0 ≤ (parseBatteryInfo output r).watts := by
  rw [parseBatteryInfo]
  generalize output.splitOn '\n' = lines
  induction lines generalizing r with
  | nil => simpa
  | cons l ls ih =>
    simpa [List.foldl_cons] using ih (parseBatteryLine r l) (parseBatteryLine_watts_nonneg r l h)

lemma getEstimatedWatts_nonneg (o : List Char) : 0 ≤ getEstimatedWatts o := by
  rw [getEstimatedWatts]
  split
  · next hdr => exact le_of_lt hdr
  · exact le_refl 0

lemma decimalVal_nonneg (cs : List Char) (q : ℚ) (h : decimalVal cs = some q) : 0 ≤ q := by
  rw [decimalVal] at h
  split at h
  · have hq := Option.some_inj.mp h
    subst hq
    positivity
  · exact absurd h (by simp)

lemma bind_decimal_getD_nonneg (x : Option (List Char)) :
    0 ≤ (x.bind decimalVal).getD 0 := by
  cases hx : x.bind decimalVal with
  | none => simp
  | some q =>
    obtain ⟨cap, hc, hd⟩ := Option.bind_eq_some.mp hx
    simpa using decimalVal_nonneg cap q hd

lemma parsePowermetrics_nonneg (o : List Char) : 0 ≤ parsePowermetrics o := by
  rw [parsePowermetrics]
  split
  · next mw hmw =>
    obtain ⟨cap, hc, hd⟩ := Option.bind_eq_some.mp hmw
    exact div_nonneg (decimalVal_nonneg cap mw hd) (by norm_num)
  · split
    · next mw hmw =>
      obtain ⟨cap, hc, hd⟩ := Option.bind_eq_some.mp hmw
      exact div_nonneg (decimalVal_nonneg cap mw hd) (by norm_num)
    · have h1 := bind_decimal_getD_nonneg (findPowerCap "CPU Power:".toList o)
      have h2 := bind_decimal_getD_nonneg (findPowerCap "GPU Power:".toList o)
      have h3 := bind_decimal_getD_nonneg (findPowerCap "ANE Power:".toList o)
      have hd : (0 : ℚ) ≤ 1000 := by norm_num
      exact add_nonneg (add_nonneg (div_nonneg h1 hd) (div_nonneg h2 hd)) (div_nonneg h3 hd)

lemma pmsetLine_watts (r : Reading) (line : List Char) :
    (pmsetLine r line).watts = r.watts := by
  simp only [pmsetLine]
  repeat' split
  all_goals rfl

lemma foldl_pmsetLine_watts (ls : List (List Char)) (r : Reading) :
    (ls.foldl pmsetLine r).watts = r.watts := by
  induction ls generalizing r with
  | nil => rfl
  | cons l ls ih => simpa [List.foldl_cons, pmsetLine_watts] using ih (pmsetLine r l)

lemma parsePmset_watts (o : List Char) (r : Reading) :
    (parsePmset o r).watts = r.watts := by
  rw [parsePmset]
  exact foldl_pmsetLine_watts _ _

lemma darwinBatteryWatts_nonneg (io : List Char) : 0 ≤ darwinBatteryWatts io := by
  rw [darwinBatteryWatts]
  split
  · next hw => exact le_of_lt hw
  · split
    · next he => exact le_of_lt he
    · exact le_refl 0

/-- C7 counterexample: on Linux with a battery present and a `power_now` file
containing `-5000000`, the read reports −5 W — the direct `power_now` path
divides by 10⁶ without normalizing the sign, violating `Watts ≥ 0`. -/
theorem linux_negative_power_now :
    (linuxRead true true 0 "1".toList "50".toList "discharging".toList
        "-5000000".toList [] [] [] [] [] []).watts = -5 ∧ ((-5 : ℚ) < 0) := by
  constructor
  · simp [linuxRead, calculateWatts, goTrimSpace, goSpace, goParseFloat, decimalVal,
      digitsVal, numCh]
    norm_num
  · norm_num

/-- C7 amended: every successful read of the management-query (Windows) and
command-output (Darwin) variants yields `Watts ≥ 0` for every raw input; the
file-based (Linux) variant yields `Watts ≥ 0` provided the `power_now` content
does not parse to a negative number (that one path passes the parsed value
through without taking the absolute value; all other derived wattage,
including the current×voltage products, is reported as an absolute value). -/
theorem watts_nonneg_amended :
    (∀ (ts : ℤ) (bO eO : Option (List Char)), 0 ≤ (windowsRead ts bO eO).watts) ∧
      (∀ (usePM hasBattery : Bool) (ts : ℤ) (pmOut pmsetOut ioregOut : Option (List Char))
        (r : Reading), darwinRead usePM hasBattery ts pmOut pmsetOut ioregOut = some r →
          0 ≤ r.watts) ∧
      (∀ (hasAC hasBattery : Bool) (ts : ℤ)
        (online capacity status powerNow voltageNow currentNow eN eF cN cF : List Char),
        (∀ p : ℚ, goParseFloat (goTrimSpace powerNow) = some p → 0 ≤ p) →
          0 ≤ (linuxRead hasAC hasBattery ts online capacity status powerNow voltageNow
            currentNow eN eF cN cF).watts) := by
  refine ⟨?_, ?_, ?_⟩
  · intro ts bO eO
    simp only [windowsRead]
    cases eO with
    | some o => simpa using getEstimatedWatts_nonneg o
    | none =>
      cases bO with
      | some o =>
        simpa using parseBatteryInfo_watts_nonneg o _ (by norm_num [windowsReading0])
      | none => norm_num [windowsReading0]
  · intro usePM hasBattery ts pmOut pmsetOut ioregOut r hr
    simp only [darwinRead] at hr
    repeat' split at hr
    all_goals try exact Option.noConfusion hr
    all_goals obtain rfl := Option.some_inj.mp hr
    all_goals try exact le_refl 0
    · exact parsePowermetrics_nonneg _
    · rw [parsePmset_watts]
    · rw [parsePmset_watts]
    · exact darwinBatteryWatts_nonneg _
  · intro hasAC hasBattery ts online capacity status powerNow voltageNow currentNow
      eN eF cN cF hpn
    have hcw : 0 ≤ calculateWatts (goTrimSpace powerNow) (goTrimSpace voltageNow)
        (goTrimSpace currentNow) := by
      rw [calculateWatts]
      split
      · next p hp =>
        have hp' : goParseFloat (goTrimSpace powerNow) = some p := by
          by_cases hne : goTrimSpace powerNow ≠ []
          · simpa [hne] using hp
          · simp [hne] at hp
        exact div_nonneg (hpn p hp') (by norm_num)
      · split
        · split
          · split
            · next hlt => linarith
            · next hlt => exact le_of_not_lt hlt
          · exact le_refl 0
        · exact le_refl 0
    simp only [linuxRead]
    by_cases hb : hasBattery = true
    · simp only [hb, if_true]
      exact hcw
    · have hb' : hasBattery = false := by
        cases hasBattery
        · rfl
        · exact absurd rfl hb
      simp only [hb', Bool.false_eq_true, if_false]
      split <;> exact le_refl 0

/-- Witness for C7's amended invariant at concrete inputs for each variant. -/
theorem watts_nonneg_amended_witness :
    0 ≤ (windowsRead 0 none none).watts ∧
      0 ≤ (Reading.mk 0 0 false (-1) false "macOS-battery").watts ∧
      0 ≤ (linuxRead true true 0 "1".toList "50".toList "discharging".toList
        "5000000".toList [] [] [] [] [] []).watts := by
  refine ⟨watts_nonneg_amended.1 0 none none, ?_, ?_⟩
  · exact watts_nonneg_amended.2.1 false true 0 none (some []) none _ (by decide)
  · refine watts_nonneg_amended.2.2 true true 0 _ _ _ _ _ _ _ _ _ _ ?_
    intro p hp
    have hval : goParseFloat (goTrimSpace "5000000".toList) = some 5000000 := by
      simp [goTrimSpace, goSpace, goParseFloat, decimalVal, digitsVal, numCh]
    rw [hval] at hp
    have := Option.some_inj.mp hp
    subst this
    norm_num

end Powermon
